import Mathlib

/-!
Verification of the IFC-to-SCR conversion script (`IFCtoSCR.py`): a shallow
embedding of its mesh decoder, beam/column centerline idealizers, line
serializer and pipeline orchestrator, together with theorems about them.

Coordinates are modelled by rational numbers: every concrete input considered
here has small integer coordinates, on which Python float arithmetic is exact,
so the rational model agrees with the source behaviour.  Python exceptions
(ValueError from `max([])`, ZeroDivisionError, IndexError) are modelled by
`Option`: a raise becomes `none`.
-/

set_option allowUnsafeReducibility true in
attribute [semireducible] Rat.mul Rat.add Rat.inv Rat.sub Rat.div Rat.blt Rat.neg

namespace IFCtoSCR

/-- A 3-D point: the coordinate triple (x, y, z) the script manipulates as a
Python tuple. -/
structure Point3 where
  x : ℚ
  y : ℚ
  z : ℚ
deriving DecidableEq, Repr

/-- A line segment ((xi, yi, zi), (xj, yj, zj)): the ordered pair of its two
endpoint tuples, as the script represents lines. -/
structure Segment where
  p : Point3
  q : Point3
deriving DecidableEq, Repr

/-- Sum of squared coordinate differences of a segment's endpoints: the
radicand of `calcLength` in `idealizeBeam`. -/
def calcLengthSq (line : Segment) : ℚ :=
  (line.p.x - line.q.x)^2 + (line.p.y - line.q.y)^2 + (line.p.z - line.q.z)^2

/-- Embeds `calcLength` from `idealizeBeam`: the Euclidean length
`((dx)**2 + (dy)**2 + (dz)**2)**0.5`. -/
noncomputable def calcLength (line : Segment) : ℝ :=
  Real.sqrt (((line.p.x - line.q.x)^2 + (line.p.y - line.q.y)^2 + (line.p.z - line.q.z)^2 : ℚ) : ℝ)

/-- Embeds `calcMidPoint` from `idealizeBeam`: coordinatewise midpoint of the
segment's endpoints. -/
def calcMidPoint (line : Segment) : Point3 :=
  ⟨(line.p.x + line.q.x)/2, (line.p.y + line.q.y)/2, (line.p.z + line.q.z)/2⟩

/-- The list `zs` built by `idealizeBeam`: the z-coordinates of both endpoints
of every segment, in traversal order. -/
def zCoords (elementLines : List Segment) : List ℚ :=
  elementLines.foldr (fun line acc => line.p.z :: line.q.z :: acc) []

/-- Python's `max` on a list: `none` on the empty list (`max([])` raises
ValueError), otherwise the greatest element. -/
def listMax : List ℚ → Option ℚ
  | [] => none
  | x :: xs => some (xs.foldl max x)

/-- The value `z_max = max(zs)` computed by `idealizeBeam`. -/
def zMax (elementLines : List Segment) : Option ℚ := listMax (zCoords elementLines)

/-- The `topLines` filter of `idealizeBeam`: segments whose both endpoints have
z-coordinate exactly `z_max`. -/
def beamTopLines (elementLines : List Segment) (z_max : ℚ) : List Segment :=
  elementLines.filter fun line => decide (line.p.z = z_max ∧ line.q.z = z_max)

/-- The degenerate placeholder `((0., 0., 0.), (0., 0., 0.))` that
`idealizeBeam` starts from. -/
def originSegment : Segment := ⟨⟨0, 0, 0⟩, ⟨0, 0, 0⟩⟩

/-- The candidate segments examined by `idealizeBeam`'s double loop
`for i in range(n): for j in range(i, n)`, in loop order: the segment joining
the midpoints of `topLines[i]` and `topLines[j]` for every i ≤ j. -/
def beamCandidates : List Segment → List Segment
  | [] => []
  | l :: rest =>
      ((l :: rest).map fun l2 => ⟨calcMidPoint l, calcMidPoint l2⟩) ++ beamCandidates rest

/-- One step of `idealizeBeam`'s selection loop: replace the current best by
the candidate exactly when `calcLength(candidate) > calcLength(idealBeam)`.
Squared lengths are compared, which is equivalent
(`calcLength_lt_calcLength_iff`). -/
def pickLonger (best cand : Segment) : Segment :=
  if calcLengthSq best < calcLengthSq cand then cand else best

/-- Embeds `idealizeBeam`: compute `z_max` over all endpoint z-coordinates
(failing on an empty input, where `max([])` raises), filter the top lines, and
fold the candidate list with `pickLonger` starting from the origin
placeholder. -/
def idealizeBeam (elementLines : List Segment) : Option Segment :=
  match zMax elementLines with
  | none => none
  | some z_max =>
      some ((beamCandidates (beamTopLines elementLines z_max)).foldl pickLonger originSegment)

/-- Embeds `calcAvgPoint`'s accumulation loop in `idealizeColumn`: the three
running sums `x_avg`, `y_avg`, `z_avg` over both endpoints of every segment. -/
def endpointSums (lines : List Segment) : ℚ × ℚ × ℚ :=
  lines.foldl
    (fun acc line =>
      (acc.1 + (line.p.x + line.q.x), acc.2.1 + (line.p.y + line.q.y),
        acc.2.2 + (line.p.z + line.q.z)))
    (0, 0, 0)

/-- Embeds `calcAvgPoint` from `idealizeColumn`: each coordinate sum divided by
`len(lines)*2`.  On the empty list Python raises ZeroDivisionError, modelled as
`none`. -/
def calcAvgPoint (lines : List Segment) : Option Point3 :=
  match lines with
  | [] => none
  | _ =>
      some ⟨(endpointSums lines).1 / ((lines.length : ℚ) * 2),
            (endpointSums lines).2.1 / ((lines.length : ℚ) * 2),
            (endpointSums lines).2.2 / ((lines.length : ℚ) * 2)⟩

/-- The `interestingLines` filter of `idealizeColumn`: segments whose two
endpoints share the same z-coordinate exactly (horizontal segments). -/
def horizontalLines (elementLines : List Segment) : List Segment :=
  elementLines.filter fun line => decide (line.p.z = line.q.z)

/-- The `zs` list of `idealizeColumn`: the distinct z-values of the horizontal
segments, in order of first appearance (`if line[0][2] in zs: pass else:
zs.append(...)`). -/
def columnZs (interestingLines : List Segment) : List ℚ :=
  interestingLines.foldl (fun zs line => if line.p.z ∈ zs then zs else zs ++ [line.p.z]) []

/-- The `topLines` partition of `idealizeColumn`: horizontal segments whose
(first endpoint's) z equals `max(zs)`; empty when there are no horizontal
segments at all. -/
def columnTopLines (elementLines : List Segment) : List Segment :=
  match listMax (columnZs (horizontalLines elementLines)) with
  | none => []
  | some z_max => (horizontalLines elementLines).filter fun line => decide (line.p.z = z_max)

/-- The `bottomLines` partition of `idealizeColumn`: every other horizontal
segment (those whose z differs from `max(zs)`). -/
def columnBottomLines (elementLines : List Segment) : List Segment :=
  match listMax (columnZs (horizontalLines elementLines)) with
  | none => []
  | some z_max => (horizontalLines elementLines).filter fun line => decide (¬ line.p.z = z_max)

/-- Embeds `idealizeColumn`: the segment from the bottom partition's average
point to the top partition's average point.  Python raises (ZeroDivisionError
in `calcAvgPoint`, or ValueError from `max([])`) exactly when a partition is
empty, modelled as `none`. -/
def idealizeColumn (elementLines : List Segment) : Option Segment :=
  match calcAvgPoint (columnBottomLines elementLines),
        calcAvgPoint (columnTopLines elementLines) with
  | some b, some t => some ⟨b, t⟩
  | _, _ => none

/-- Groups the flat vertex buffer into consecutive coordinate triples:
`points = [vertices[i*3:i*3+3] for i in range(len(vertices)//3)]`.  Floor
division silently drops one or two trailing leftover values. -/
def chunk3 : List ℚ → List Point3
  | x :: y :: z :: rest => ⟨x, y, z⟩ :: chunk3 rest
  | _ => []

/-- Groups the flat edge-index buffer into consecutive index pairs:
`line_points = [edges[i*2:i*2+2] for i in range(len(edges)//2)]`.  Floor
division silently drops a trailing leftover value. -/
def chunk2 : List ℕ → List (ℕ × ℕ)
  | a :: b :: rest => (a, b) :: chunk2 rest
  | _ => []

/-- Resolves each surviving index pair to the segment joining the indexed
points (`lines = [(points[a], points[b]) ...]`); an out-of-range index raises
IndexError in Python, modelled as `none`. -/
def resolveSegments (points : List Point3) : List (ℕ × ℕ) → Option (List Segment)
  | [] => some []
  | (a, b) :: rest =>
      match points[a]?, points[b]?, resolveSegments points rest with
      | some pa, some pb, some segs => some (⟨pa, pb⟩ :: segs)
      | _, _, _ => none

/-- Embeds the mesh-decoding body of `abstract_elements_by_type` for one
element: chunk the vertex buffer into points, chunk the edge buffer into index
pairs, remove exact duplicate index pairs (`list(set(line_points))`, modelled
by an order-preserving dedup — the set's iteration order is arbitrary anyway),
and resolve each pair to a segment. -/
def decodeMesh (vertices : List ℚ) (edges : List ℕ) : Option (List Segment) :=
  resolveSegments (chunk3 vertices) (chunk2 edges).dedup

/-- An edge-index buffer in which every index pair is duplicated: each
consecutive pair `a, b` becomes `a, b, a, b`. -/
def dupEdgeBuffer : List ℕ → List ℕ
  | a :: b :: rest => a :: b :: a :: b :: dupEdgeBuffer rest
  | l => l

/-- Duplicate every element of an index-pair list in place. -/
def duplicatePairs : List (ℕ × ℕ) → List (ℕ × ℕ)
  | [] => []
  | p :: rest => p :: p :: duplicatePairs rest

/-- Flatten an index-pair list back into a flat edge-index buffer. -/
def flattenPairs : List (ℕ × ℕ) → List ℕ
  | [] => []
  | (a, b) :: rest => a :: b :: flattenPairs rest

/-- The synthetic beam mesh of the spec's test property: top lines
((0,0,10),(4,0,10)) and ((0,2,10),(4,2,10)) together with segments at z=0. -/
def beamSpecExample : List Segment :=
  [⟨⟨0, 0, 10⟩, ⟨4, 0, 10⟩⟩, ⟨⟨0, 2, 10⟩, ⟨4, 2, 10⟩⟩,
   ⟨⟨0, 0, 0⟩, ⟨4, 0, 0⟩⟩, ⟨⟨0, 2, 0⟩, ⟨4, 2, 0⟩⟩]

/-- The synthetic column mesh of the spec's test property: bottom-level
horizontal segment ((0,0,0),(2,0,0)) and top-level ((0,0,5),(2,0,5)). -/
def columnSpecExample : List Segment :=
  [⟨⟨0, 0, 0⟩, ⟨2, 0, 0⟩⟩, ⟨⟨0, 0, 5⟩, ⟨2, 0, 5⟩⟩]

/-- A beam mesh with two parallel top lines at z = 1, used to instantiate the
general beam theorems. -/
def beamWitnessInput : List Segment :=
  [⟨⟨0, 0, 1⟩, ⟨2, 0, 1⟩⟩, ⟨⟨0, 2, 1⟩, ⟨2, 2, 1⟩⟩]

/-- A beam mesh consisting of a single top line: every candidate is a
zero-length self-pair. -/
def beamDegenerateInput : List Segment :=
  [⟨⟨1, 1, 1⟩, ⟨3, 1, 1⟩⟩]

/-- A beam mesh with a single slanted segment: no segment has both endpoints
at the maximum z, so there are no top lines. -/
def beamSlantedInput : List Segment :=
  [⟨⟨0, 0, 0⟩, ⟨1, 0, 1⟩⟩]

/-- A column mesh with one vertical segment: no horizontal segments exist. -/
def columnNoHorizontalInput : List Segment :=
  [⟨⟨0, 0, 0⟩, ⟨0, 0, 1⟩⟩]

/-- A column mesh whose only horizontal segment lies at a single z level, so
the bottom partition is empty. -/
def columnOneLevelInput : List Segment :=
  [⟨⟨0, 0, 2⟩, ⟨1, 0, 2⟩⟩]

/-- Python's `str.replace` on character lists, leftmost non-overlapping, with
explicit fuel (one unit per scanned position) so that the recursion is
structural; `pyReplace` supplies fuel covering the whole string. -/
def replaceFuel (pattern repl : List Char) : ℕ → List Char → List Char
  | _, [] => []
  | 0, s => s
  | fuel + 1, c :: rest =>
      if pattern.isPrefixOf (c :: rest) then
        repl ++ replaceFuel pattern repl fuel ((c :: rest).drop pattern.length)
      else c :: replaceFuel pattern repl fuel rest

/-- Python's `s.replace(pattern, repl)` for a non-empty pattern: each scan step
consumes at least one character, so `s.length` fuel suffices. -/
def pyReplace (s pattern repl : String) : String :=
  ⟨replaceFuel pattern.data repl.data s.data.length s.data⟩

/-- Python's `str` of a coordinate tuple `(x, y, z)`: parentheses with `, `
separators.  Coordinates render via `toString`, which agrees with Python's
rendering on the integer-valued inputs the claims exercise. -/
def pyStrPoint (p : Point3) : String :=
  "(" ++ toString p.x ++ ", " ++ toString p.y ++ ", " ++ toString p.z ++ ")"

/-- Python's `str` of a segment `((xi, yi, zi), (xj, yj, zj))`. -/
def pyStrSegment (s : Segment) : String :=
  "(" ++ pyStrPoint s.p ++ ", " ++ pyStrPoint s.q ++ ")"

/-- The per-segment line written by `writeLines`:
`str(point).replace(" ", "")`, then `f"line {...} \n"`, then the three
bracket-stripping replaces. -/
def segmentLine (point : Segment) : String :=
  pyReplace (pyReplace (pyReplace ("line " ++ pyReplace (pyStrSegment point) " " "" ++ " \n")
    "),(" " ") "(" "") ")" ""

/-- The full text `writeLines` writes for one call: the fixed zoom header, one
line per segment, and the `zoom a` footer. -/
def writeLinesContent (lines : List Segment) : String :=
  "zoom -100,-100,-100 -200,-200,-200\n" ++ String.join (lines.map segmentLine) ++ "zoom a\n"

/-- Embeds `process_file`, parameterized by what the geometry kernel returned:
per-element (vertex buffer, edge buffer) pairs for the beams and for the
columns.  Both output files are first truncated to empty; then, element by
element, the wireframe file and the idealized file are appended to.  The
result is the final (wireframe content, idealized content); `none` models a
run aborted by an exception (decode or idealization failure). -/
def processOutputs (beams columns : List (List ℚ × List ℕ)) : Option (String × String) :=
  match beams.mapM (fun g => decodeMesh g.1 g.2),
        columns.mapM (fun g => decodeMesh g.1 g.2) with
  | some beamSegLists, some columnSegLists =>
      match beamSegLists.mapM idealizeBeam, columnSegLists.mapM idealizeColumn with
      | some beamIdeals, some columnIdeals =>
          some (String.join ((beamSegLists ++ columnSegLists).map writeLinesContent),
                String.join ((beamIdeals.map fun r => writeLinesContent [r]) ++
                  (columnIdeals.map fun r => writeLinesContent [r])))
      | _, _ => none
  | _, _ => none

lemma calcLengthSq_nonneg (line : Segment) : 0 ≤ calcLengthSq line := by
  unfold calcLengthSq; positivity

lemma calcLength_eq_sqrt (line : Segment) :
    calcLength line = Real.sqrt ((calcLengthSq line : ℚ) : ℝ) := rfl

lemma calcLength_le_calcLength_iff (a b : Segment) :
    calcLength a ≤ calcLength b ↔ calcLengthSq a ≤ calcLengthSq b := by
  rw [calcLength_eq_sqrt, calcLength_eq_sqrt,
    Real.sqrt_le_sqrt_iff (by exact_mod_cast calcLengthSq_nonneg b)]
  exact Rat.cast_le

lemma calcLength_lt_calcLength_iff (a b : Segment) :
    calcLength a < calcLength b ↔ calcLengthSq a < calcLengthSq b := by
  rw [calcLength_eq_sqrt, calcLength_eq_sqrt,
    Real.sqrt_lt_sqrt_iff (by exact_mod_cast calcLengthSq_nonneg a)]
  exact Rat.cast_lt

lemma calcLengthSq_swap (a b : Point3) :
    calcLengthSq ⟨a, b⟩ = calcLengthSq ⟨b, a⟩ := by
  unfold calcLengthSq; ring

lemma calcLengthSq_originSegment : calcLengthSq originSegment = 0 := by
  unfold calcLengthSq originSegment; norm_num

lemma zCoords_cons (l : Segment) (ls : List Segment) :
    zCoords (l :: ls) = l.p.z :: l.q.z :: zCoords ls := rfl

lemma listMax_isSome {l : List ℚ} (h : l ≠ []) : ∃ m, listMax l = some m := by
  cases l with
  | nil => exact absurd rfl h
  | cons x xs => exact ⟨_, rfl⟩

lemma foldl_max_spec (xs : List ℚ) (x : ℚ) :
    (xs.foldl max x ∈ x :: xs) ∧ x ≤ xs.foldl max x ∧ ∀ z ∈ xs, z ≤ xs.foldl max x := by
  induction xs generalizing x with
  | nil => simp
  | cons y ys ih =>
      obtain ⟨hmem, hle, hub⟩ := ih (max x y)
      rw [List.foldl_cons]
      refine ⟨?_, le_trans (le_max_left x y) hle, ?_⟩
      · rcases List.mem_cons.mp hmem with h | h
        · rcases max_choice x y with hc | hc <;> rw [h, hc] <;> simp
        · exact List.mem_cons_of_mem _ (List.mem_cons_of_mem _ h)
      · intro z hz
        rcases List.mem_cons.mp hz with rfl | hz
        · exact le_trans (le_max_right x z) hle
        · exact hub z hz

lemma listMax_spec {l : List ℚ} {m : ℚ} (h : listMax l = some m) :
    m ∈ l ∧ ∀ z ∈ l, z ≤ m := by
  cases l with
  | nil => simp [listMax] at h
  | cons x xs =>
      obtain ⟨hmem, hle, hub⟩ := foldl_max_spec xs x
      obtain rfl : xs.foldl max x = m := by simpa [listMax] using h
      refine ⟨hmem, ?_⟩
      intro z hz
      rcases List.mem_cons.mp hz with rfl | hz
      · exact hle
      · exact hub z hz

lemma mem_beamTopLines {lines : List Segment} {z : ℚ} {l : Segment} :
    l ∈ beamTopLines lines z ↔ l ∈ lines ∧ l.p.z = z ∧ l.q.z = z := by
  simp [beamTopLines, List.mem_filter]

lemma mem_beamCandidates {tls : List Segment} {c : Segment} (h : c ∈ beamCandidates tls) :
    ∃ l1 ∈ tls, ∃ l2 ∈ tls, c = ⟨calcMidPoint l1, calcMidPoint l2⟩ := by
  induction tls with
  | nil => simp [beamCandidates] at h
  | cons l rest ih =>
      simp only [beamCandidates] at h
      rcases List.mem_append.mp h with hA | hB
      · obtain ⟨l2, hl2, rfl⟩ := List.mem_map.mp hA
        exact ⟨l, List.mem_cons_self _ _, l2, hl2, rfl⟩
      · obtain ⟨l1, hm1, l2, hm2, rfl⟩ := ih hB
        exact ⟨l1, List.mem_cons_of_mem _ hm1, l2, List.mem_cons_of_mem _ hm2, rfl⟩

lemma beamCandidates_complete {tls : List Segment} {l1 l2 : Segment}
    (h1 : l1 ∈ tls) (h2 : l2 ∈ tls) :
    (⟨calcMidPoint l1, calcMidPoint l2⟩ : Segment) ∈ beamCandidates tls ∨
    (⟨calcMidPoint l2, calcMidPoint l1⟩ : Segment) ∈ beamCandidates tls := by
  induction tls with
  | nil => simp at h1
  | cons l rest ih =>
      rcases List.mem_cons.mp h1 with rfl | h1h
      · left
        simp only [beamCandidates]
        exact List.mem_append_left _ (List.mem_map.mpr ⟨l2, h2, rfl⟩)
      · rcases List.mem_cons.mp h2 with rfl | h2h
        · right
          simp only [beamCandidates]
          exact List.mem_append_left _ (List.mem_map.mpr ⟨l1, List.mem_cons_of_mem _ h1h, rfl⟩)
        · rcases ih h1h h2h with h | h
          · left
            simp only [beamCandidates]
            exact List.mem_append_right _ h
          · right
            simp only [beamCandidates]
            exact List.mem_append_right _ h

lemma foldl_pickLonger_spec (cs : List Segment) (best : Segment) :
    (cs.foldl pickLonger best = best ∨ cs.foldl pickLonger best ∈ cs) ∧
    calcLengthSq best ≤ calcLengthSq (cs.foldl pickLonger best) ∧
    ∀ c ∈ cs, calcLengthSq c ≤ calcLengthSq (cs.foldl pickLonger best) := by
  induction cs generalizing best with
  | nil => simp
  | cons c cs ih =>
      obtain ⟨hmem, hge, hub⟩ := ih (pickLonger best c)
      have hcase : pickLonger best c = best ∨ pickLonger best c = c := by
        unfold pickLonger; split
        · right; rfl
        · left; rfl
      have hbest : calcLengthSq best ≤ calcLengthSq (pickLonger best c) := by
        unfold pickLonger; split
        · exact le_of_lt (by assumption)
        · exact le_refl _
      have hc : calcLengthSq c ≤ calcLengthSq (pickLonger best c) := by
        unfold pickLonger; split
        · exact le_refl _
        · exact le_of_not_lt (by assumption)
      rw [List.foldl_cons]
      refine ⟨?_, le_trans hbest hge, ?_⟩
      · rcases hmem with h | h
        · rcases hcase with hcb | hcc
          · left; rw [h, hcb]
          · right; rw [h, hcc]; exact List.mem_cons_self _ _
        · right; exact List.mem_cons_of_mem _ h
      · intro d hd
        rcases List.mem_cons.mp hd with rfl | hdh
        · exact le_trans hc hge
        · exact hub d hdh

lemma foldl_pickLonger_id (cs : List Segment) (best : Segment)
    (h : ∀ c ∈ cs, calcLengthSq c ≤ calcLengthSq best) :
    cs.foldl pickLonger best = best := by
  induction cs with
  | nil => rfl
  | cons c cs ih =>
      rw [List.foldl_cons]
      have hstep : pickLonger best c = best := by
        unfold pickLonger
        rw [if_neg (not_lt.mpr (h c (List.mem_cons_self _ _)))]
      rw [hstep]
      exact ih fun d hd => h d (List.mem_cons_of_mem _ hd)

lemma calcMidPoint_z (l : Segment) : (calcMidPoint l).z = (l.p.z + l.q.z) / 2 := rfl

lemma idealizeBeam_eq {lines : List Segment} {z_max : ℚ} (hz : zMax lines = some z_max) :
    idealizeBeam lines =
      some ((beamCandidates (beamTopLines lines z_max)).foldl pickLonger originSegment) := by
  unfold idealizeBeam
  rw [hz]

lemma zMax_isSome {lines : List Segment} (h : lines ≠ []) : ∃ m, zMax lines = some m := by
  unfold zMax
  apply listMax_isSome
  cases lines with
  | nil => exact absurd rfl h
  | cons l ls => simp [zCoords_cons]

/-- C10: for every non-empty segment list, the beam idealizer is total (it
returns a result, never raising), and its result is either the origin
placeholder ((0,0,0),(0,0,0)) or a segment joining midpoints of two top lines,
in which case both endpoints have z-coordinate exactly z_max. -/
theorem beam_idealizer_total_and_top (lines : List Segment) (h : lines ≠ []) :
    ∃ z_max r, zMax lines = some z_max ∧ idealizeBeam lines = some r ∧
      (r = originSegment ∨
        ∃ l1 ∈ beamTopLines lines z_max, ∃ l2 ∈ beamTopLines lines z_max,
          r = ⟨calcMidPoint l1, calcMidPoint l2⟩ ∧ r.p.z = z_max ∧ r.q.z = z_max) := by
  obtain ⟨z_max, hz⟩ := zMax_isSome h
  refine ⟨z_max, _, hz, idealizeBeam_eq hz, ?_⟩
  obtain ⟨hmem, -, -⟩ :=
    foldl_pickLonger_spec (beamCandidates (beamTopLines lines z_max)) originSegment
  rcases hmem with h0 | hc
  · left; exact h0
  · right
    obtain ⟨l1, hl1, l2, hl2, heq⟩ := mem_beamCandidates hc
    obtain ⟨-, hp1, hq1⟩ := mem_beamTopLines.mp hl1
    obtain ⟨-, hp2, hq2⟩ := mem_beamTopLines.mp hl2
    refine ⟨l1, hl1, l2, hl2, heq, ?_, ?_⟩
    · rw [heq]
      show (calcMidPoint l1).z = z_max
      rw [calcMidPoint_z, hp1, hq1]
      ring
    · rw [heq]
      show (calcMidPoint l2).z = z_max
      rw [calcMidPoint_z, hp2, hq2]
      ring

/-- Witness for C10 at a concrete two-top-line beam mesh. -/
theorem beam_idealizer_total_and_top_witness :
    ∃ z_max r, zMax beamWitnessInput = some z_max ∧
      idealizeBeam beamWitnessInput = some r ∧
      (r = originSegment ∨
        ∃ l1 ∈ beamTopLines beamWitnessInput z_max,
          ∃ l2 ∈ beamTopLines beamWitnessInput z_max,
            r = ⟨calcMidPoint l1, calcMidPoint l2⟩ ∧ r.p.z = z_max ∧ r.q.z = z_max) :=
  beam_idealizer_total_and_top beamWitnessInput (by decide)

/-- C2 (corrected): with no top lines the beam idealizer does not fail — the
reference behaviour is to return the zero-length origin placeholder. -/
theorem beam_no_top_lines_returns_placeholder (lines : List Segment) (z_max : ℚ)
    (hz : zMax lines = some z_max) (h : beamTopLines lines z_max = []) :
    idealizeBeam lines = some originSegment := by
  rw [idealizeBeam_eq hz, h]
  rfl

/-- Counterexample to C2 as stated: this slanted single-segment mesh has no
top lines, yet the beam idealizer succeeds with the zero-length placeholder
((0,0,0),(0,0,0)) instead of failing. -/
theorem beam_no_top_lines_cex :
    zMax beamSlantedInput = some 1 ∧
    beamTopLines beamSlantedInput 1 = [] ∧
    idealizeBeam beamSlantedInput = some originSegment ∧
    originSegment = ⟨⟨0, 0, 0⟩, ⟨0, 0, 0⟩⟩ := by decide

/-- Witness for corrected C2 at the slanted single-segment mesh. -/
theorem beam_no_top_lines_returns_placeholder_witness :
    idealizeBeam beamSlantedInput = some originSegment :=
  beam_no_top_lines_returns_placeholder beamSlantedInput 1 (by decide) (by decide)

/-- Counterexample to C1 as stated: on a single-top-line mesh the unique
candidate is the zero-length segment at the top line's midpoint, but the
idealizer returns the origin placeholder, which is not a candidate — so it
does not return "the candidate of maximum Euclidean length". -/
theorem beam_max_candidate_cex :
    idealizeBeam beamDegenerateInput = some originSegment ∧
    zMax beamDegenerateInput = some 1 ∧
    beamCandidates (beamTopLines beamDegenerateInput 1) = [⟨⟨2, 1, 1⟩, ⟨2, 1, 1⟩⟩] ∧
    (originSegment : Segment) ≠ ⟨⟨2, 1, 1⟩, ⟨2, 1, 1⟩⟩ := by decide

/-- C1 (amended): on every non-empty input the beam idealizer computes z_max
as the maximum endpoint z, selects as top lines exactly the segments with both
endpoints at z_max, and bounds every unordered-pair midpoint candidate's
Euclidean length by the result's; when some candidate has positive length the
result is a candidate, and when all candidates are zero-length the result is
the origin placeholder instead.  On the spec's example mesh the result is
((2,0,10),(2,2,10)), of length 2. -/
theorem beam_idealizer_max_candidate :
    (∀ lines : List Segment, lines ≠ [] →
      ∃ z_max r, zMax lines = some z_max ∧ idealizeBeam lines = some r ∧
        (z_max ∈ zCoords lines ∧ ∀ z ∈ zCoords lines, z ≤ z_max) ∧
        (∀ l : Segment,
          l ∈ beamTopLines lines z_max ↔ l ∈ lines ∧ l.p.z = z_max ∧ l.q.z = z_max) ∧
        (∀ l1 ∈ beamTopLines lines z_max, ∀ l2 ∈ beamTopLines lines z_max,
          calcLength ⟨calcMidPoint l1, calcMidPoint l2⟩ ≤ calcLength r) ∧
        ((∃ c ∈ beamCandidates (beamTopLines lines z_max), 0 < calcLengthSq c) →
          r ∈ beamCandidates (beamTopLines lines z_max)) ∧
        ((∀ c ∈ beamCandidates (beamTopLines lines z_max), calcLengthSq c = 0) →
          r = originSegment)) ∧
    idealizeBeam beamSpecExample = some ⟨⟨2, 0, 10⟩, ⟨2, 2, 10⟩⟩ ∧
    calcLength ⟨⟨2, 0, 10⟩, ⟨2, 2, 10⟩⟩ = 2 := by
  refine ⟨?_, by decide, ?_⟩
  · intro lines hne
    obtain ⟨z_max, hz⟩ := zMax_isSome hne
    obtain ⟨hmem, hge, hub⟩ :=
      foldl_pickLonger_spec (beamCandidates (beamTopLines lines z_max)) originSegment
    refine ⟨z_max, _, hz, idealizeBeam_eq hz, listMax_spec hz,
      fun l => mem_beamTopLines, ?_, ?_, ?_⟩
    · intro l1 hl1 l2 hl2
      rw [calcLength_le_calcLength_iff]
      rcases beamCandidates_complete hl1 hl2 with hc | hc
      · exact hub _ hc
      · rw [calcLengthSq_swap]
        exact hub _ hc
    · rintro ⟨c, hc, hpos⟩
      rcases hmem with h0 | hin
      · exfalso
        have hle := hub c hc
        rw [h0, calcLengthSq_originSegment] at hle
        linarith
      · exact hin
    · intro hall
      apply foldl_pickLonger_id
      intro c hc
      rw [hall c hc, calcLengthSq_originSegment]
  · have h4 : calcLengthSq ⟨⟨2, 0, 10⟩, ⟨2, 2, 10⟩⟩ = 4 := by decide
    rw [calcLength_eq_sqrt, h4, show ((4 : ℚ) : ℝ) = (2 : ℝ) ^ 2 by norm_num]
    exact Real.sqrt_sq (by norm_num)

/-- Witness for amended C1 at the two-top-line mesh. -/
theorem beam_idealizer_max_candidate_witness :
    ∃ z_max r, zMax beamWitnessInput = some z_max ∧
      idealizeBeam beamWitnessInput = some r ∧
      (z_max ∈ zCoords beamWitnessInput ∧ ∀ z ∈ zCoords beamWitnessInput, z ≤ z_max) ∧
      (∀ l : Segment, l ∈ beamTopLines beamWitnessInput z_max ↔
        l ∈ beamWitnessInput ∧ l.p.z = z_max ∧ l.q.z = z_max) ∧
      (∀ l1 ∈ beamTopLines beamWitnessInput z_max,
        ∀ l2 ∈ beamTopLines beamWitnessInput z_max,
          calcLength ⟨calcMidPoint l1, calcMidPoint l2⟩ ≤ calcLength r) ∧
      ((∃ c ∈ beamCandidates (beamTopLines beamWitnessInput z_max), 0 < calcLengthSq c) →
        r ∈ beamCandidates (beamTopLines beamWitnessInput z_max)) ∧
      ((∀ c ∈ beamCandidates (beamTopLines beamWitnessInput z_max), calcLengthSq c = 0) →
        r = originSegment) :=
  beam_idealizer_max_candidate.1 beamWitnessInput (by decide)

lemma calcAvgPoint_nil : calcAvgPoint [] = none := rfl

lemma calcAvgPoint_isSome {lines : List Segment} (h : lines ≠ []) :
    ∃ p, calcAvgPoint lines = some p := by
  cases lines with
  | nil => exact absurd rfl h
  | cons l ls => exact ⟨_, rfl⟩

lemma columnBottomLines_of_no_horizontal {lines : List Segment}
    (h : horizontalLines lines = []) : columnBottomLines lines = [] := by
  unfold columnBottomLines
  rw [h]
  rfl

/-- C3: the column idealizer fails (raises, modelled as `none`) whenever there
are no horizontal segments at all, or one of the top/bottom partitions of the
horizontal segments is empty. -/
theorem column_idealizer_degenerate_fails (lines : List Segment)
    (h : horizontalLines lines = [] ∨ columnTopLines lines = [] ∨
      columnBottomLines lines = []) :
    idealizeColumn lines = none := by
  unfold idealizeColumn
  rcases h with h | h | h
  · rw [columnBottomLines_of_no_horizontal h, calcAvgPoint_nil]
  · rw [h, calcAvgPoint_nil]
    cases calcAvgPoint (columnBottomLines lines) <;> rfl
  · rw [h, calcAvgPoint_nil]

/-- Witness for C3: a mesh with no horizontal segment, and a mesh whose only
horizontal level leaves the bottom partition empty, both fail. -/
theorem column_idealizer_degenerate_fails_witness :
    idealizeColumn columnNoHorizontalInput = none ∧
    idealizeColumn columnOneLevelInput = none :=
  ⟨column_idealizer_degenerate_fails columnNoHorizontalInput (Or.inl (by decide)),
   column_idealizer_degenerate_fails columnOneLevelInput (Or.inr (Or.inr (by decide)))⟩

/-- C4: whenever both partitions of the horizontal segments are non-empty, the
column idealizer returns the segment from the bottom partition's average point
to the top partition's average point; on the spec's example the result is
((1,0,0),(1,0,5)). -/
theorem column_idealizer_averages :
    (∀ lines : List Segment, columnBottomLines lines ≠ [] → columnTopLines lines ≠ [] →
      ∃ b t, calcAvgPoint (columnBottomLines lines) = some b ∧
        calcAvgPoint (columnTopLines lines) = some t ∧
        idealizeColumn lines = some ⟨b, t⟩) ∧
    idealizeColumn columnSpecExample = some ⟨⟨1, 0, 0⟩, ⟨1, 0, 5⟩⟩ := by
  refine ⟨?_, by decide⟩
  intro lines hb ht
  obtain ⟨b, hbEq⟩ := calcAvgPoint_isSome hb
  obtain ⟨t, htEq⟩ := calcAvgPoint_isSome ht
  refine ⟨b, t, hbEq, htEq, ?_⟩
  unfold idealizeColumn
  rw [hbEq, htEq]

/-- Witness for C4 at the spec's two-level column mesh. -/
theorem column_idealizer_averages_witness :
    ∃ b t, calcAvgPoint (columnBottomLines columnSpecExample) = some b ∧
      calcAvgPoint (columnTopLines columnSpecExample) = some t ∧
      idealizeColumn columnSpecExample = some ⟨b, t⟩ :=
  column_idealizer_averages.1 columnSpecExample (by decide) (by decide)

lemma chunk3_nil_of_short {l : List ℚ} (h : l.length < 3) : chunk3 l = [] := by
  rcases l with _ | ⟨x, _ | ⟨y, _ | ⟨z, rest⟩⟩⟩
  · rfl
  · rfl
  · rfl
  · exfalso
    simp only [List.length_cons] at h
    omega

lemma chunk2_nil_of_short {l : List ℕ} (h : l.length < 2) : chunk2 l = [] := by
  rcases l with _ | ⟨a, _ | ⟨b, rest⟩⟩
  · rfl
  · rfl
  · exfalso
    simp only [List.length_cons] at h
    omega

lemma chunk3_append (n : ℕ) :
    ∀ (verts tail : List ℚ), verts.length = 3 * n →
      chunk3 (verts ++ tail) = chunk3 verts ++ chunk3 tail := by
  induction n with
  | zero =>
      intro verts tail h
      obtain rfl : verts = [] := List.eq_nil_of_length_eq_zero (by omega)
      rfl
  | succ n ih =>
      intro verts tail h
      rcases verts with _ | ⟨x, _ | ⟨y, _ | ⟨z, rest⟩⟩⟩
      · exfalso; simp only [List.length_nil] at h; omega
      · exfalso; simp only [List.length_cons, List.length_nil] at h; omega
      · exfalso; simp only [List.length_cons, List.length_nil] at h; omega
      · have hrest : rest.length = 3 * n := by
          simp only [List.length_cons] at h; omega
        simp only [List.cons_append, chunk3]
        exact congrArg (List.cons _) (ih rest tail hrest)

lemma chunk2_append (n : ℕ) :
    ∀ (edges tail : List ℕ), edges.length = 2 * n →
      chunk2 (edges ++ tail) = chunk2 edges ++ chunk2 tail := by
  induction n with
  | zero =>
      intro edges tail h
      obtain rfl : edges = [] := List.eq_nil_of_length_eq_zero (by omega)
      rfl
  | succ n ih =>
      intro edges tail h
      rcases edges with _ | ⟨a, _ | ⟨b, rest⟩⟩
      · exfalso; simp only [List.length_nil] at h; omega
      · exfalso; simp only [List.length_cons, List.length_nil] at h; omega
      · have hrest : rest.length = 2 * n := by
          simp only [List.length_cons] at h; omega
        simp only [List.cons_append, chunk2]
        exact congrArg (List.cons _) (ih rest tail hrest)

lemma resolveSegments_none_of_oob (points : List Point3) (ps : List (ℕ × ℕ))
    (a b : ℕ) (hmem : (a, b) ∈ ps) (h : points.length ≤ a ∨ points.length ≤ b) :
    resolveSegments points ps = none := by
  induction ps with
  | nil => simp at hmem
  | cons q rest ih =>
      obtain ⟨c, d⟩ := q
      rcases List.mem_cons.mp hmem with heq | hmem'
      · injection heq with h1 h2
        subst h1
        subst h2
        unfold resolveSegments
        rcases h with h | h
        · rw [List.getElem?_eq_none h]
        · rw [List.getElem?_eq_none h]
          cases points[a]? <;> rfl
      · unfold resolveSegments
        rw [ih hmem']
        cases points[c]? <;> cases points[d]? <;> rfl

lemma resolveSegments_isSome (points : List Point3) (ps : List (ℕ × ℕ))
    (h : ∀ p ∈ ps, p.1 < points.length ∧ p.2 < points.length) :
    ∃ segs, resolveSegments points ps = some segs := by
  induction ps with
  | nil => exact ⟨[], rfl⟩
  | cons q rest ih =>
      obtain ⟨a, b⟩ := q
      obtain ⟨ha, hb⟩ := h (a, b) (List.mem_cons_self _ _)
      obtain ⟨segs, hsegs⟩ := ih fun p hp => h p (List.mem_cons_of_mem _ hp)
      refine ⟨Segment.mk (points.get ⟨a, ha⟩) (points.get ⟨b, hb⟩) :: segs, ?_⟩
      unfold resolveSegments
      rw [List.getElem?_eq_getElem ha, List.getElem?_eq_getElem hb, hsegs]
      rfl

lemma resolveSegments_mem (points : List Point3) :
    ∀ (ps : List (ℕ × ℕ)) (segs : List Segment), resolveSegments points ps = some segs →
      ∀ a b : ℕ, (a, b) ∈ ps →
        ∃ pa pb, points[a]? = some pa ∧ points[b]? = some pb ∧
          (⟨pa, pb⟩ : Segment) ∈ segs := by
  intro ps
  induction ps with
  | nil =>
      intro segs hres a b hmem
      simp at hmem
  | cons q rest ih =>
      obtain ⟨c, d⟩ := q
      intro segs hres a b hmem
      unfold resolveSegments at hres
      cases hc : points[c]? with
      | none => rw [hc] at hres; simp at hres
      | some pc =>
        cases hd : points[d]? with
        | none => rw [hc, hd] at hres; simp at hres
        | some pd =>
          cases hrest : resolveSegments points rest with
          | none => rw [hc, hd, hrest] at hres; simp at hres
          | some rsegs =>
            rw [hc, hd, hrest] at hres
            obtain rfl : (⟨pc, pd⟩ : Segment) :: rsegs = segs := by
              simpa using hres
            rcases List.mem_cons.mp hmem with heq | hmem'
            · injection heq with h1 h2
              subst h1
              subst h2
              exact ⟨pc, pd, hc, hd, List.mem_cons_self _ _⟩
            · obtain ⟨pa, pb, h1, h2, h3⟩ := ih rsegs hrest a b hmem'
              exact ⟨pa, pb, h1, h2, List.mem_cons_of_mem _ h3⟩

lemma chunk2_dupEdgeBuffer : ∀ e : List ℕ, chunk2 (dupEdgeBuffer e) = duplicatePairs (chunk2 e)
  | [] => rfl
  | [a] => rfl
  | a :: b :: rest =>
      congrArg (fun l => (a, b) :: (a, b) :: l) (chunk2_dupEdgeBuffer rest)

lemma mem_duplicatePairs {l : List (ℕ × ℕ)} {p : ℕ × ℕ} :
    p ∈ duplicatePairs l ↔ p ∈ l := by
  induction l with
  | nil => simp [duplicatePairs]
  | cons q rest ih => simp [duplicatePairs, ih]

lemma dedup_duplicatePairs (l : List (ℕ × ℕ)) : (duplicatePairs l).dedup = l.dedup := by
  induction l with
  | nil => rfl
  | cons p rest ih =>
      show (p :: p :: duplicatePairs rest).dedup = (p :: rest).dedup
      rw [List.dedup_cons_of_mem (List.mem_cons_self _ _)]
      by_cases hp : p ∈ rest
      · rw [List.dedup_cons_of_mem (mem_duplicatePairs.mpr hp), List.dedup_cons_of_mem hp, ih]
      · rw [List.dedup_cons_of_not_mem (fun hc => hp (mem_duplicatePairs.mp hc)),
          List.dedup_cons_of_not_mem hp, ih]

lemma chunk2_flattenPairs : ∀ ps : List (ℕ × ℕ), chunk2 (flattenPairs ps) = ps
  | [] => rfl
  | (a, b) :: rest => congrArg (fun l => (a, b) :: l) (chunk2_flattenPairs rest)

/-- Counterexample to C5 as stated: a vertex buffer of length 4 (not a
multiple of 3) and an edge buffer of length 3 (not a multiple of 2) are both
accepted by the decoder, which silently drops the trailing leftover values
instead of failing. -/
theorem decoder_truncation_cex :
    ([0, 0, 0, 7] : List ℚ).length % 3 ≠ 0 ∧
    decodeMesh [0, 0, 0, 7] [0, 0] = some [⟨⟨0, 0, 0⟩, ⟨0, 0, 0⟩⟩] ∧
    ([0, 0, 5] : List ℕ).length % 2 ≠ 0 ∧
    decodeMesh [0, 0, 0] [0, 0, 5] = some [⟨⟨0, 0, 0⟩, ⟨0, 0, 0⟩⟩] := by decide

/-- C5 (amended): buffers whose lengths are not multiples of 3 (vertices)
resp. 2 (edges) are silently truncated — trailing leftovers do not change the
result — and the decoder fails exactly on a surviving out-of-range edge
index: any out-of-range surviving pair forces failure, and if every surviving
pair is in range the decoder succeeds. -/
theorem decoder_truncates_and_checks_range :
    (∀ (verts tail : List ℚ) (edges : List ℕ), verts.length % 3 = 0 → tail.length < 3 →
      decodeMesh (verts ++ tail) edges = decodeMesh verts edges) ∧
    (∀ (verts : List ℚ) (edges tail : List ℕ), edges.length % 2 = 0 → tail.length < 2 →
      decodeMesh verts (edges ++ tail) = decodeMesh verts edges) ∧
    (∀ (verts : List ℚ) (edges : List ℕ) (a b : ℕ), (a, b) ∈ chunk2 edges →
      ((chunk3 verts).length ≤ a ∨ (chunk3 verts).length ≤ b) →
      decodeMesh verts edges = none) ∧
    (∀ (verts : List ℚ) (edges : List ℕ),
      (∀ p ∈ chunk2 edges, p.1 < (chunk3 verts).length ∧ p.2 < (chunk3 verts).length) →
      ∃ segs, decodeMesh verts edges = some segs) := by
  refine ⟨?_, ?_, ?_, ?_⟩
  · intro verts tail edges h3 hlt
    unfold decodeMesh
    rw [chunk3_append (verts.length / 3) verts tail (by omega), chunk3_nil_of_short hlt,
      List.append_nil]
  · intro verts edges tail h2 hlt
    unfold decodeMesh
    rw [chunk2_append (edges.length / 2) edges tail (by omega), chunk2_nil_of_short hlt,
      List.append_nil]
  · intro verts edges a b hmem hoob
    unfold decodeMesh
    exact resolveSegments_none_of_oob _ _ a b (List.mem_dedup.mpr hmem) hoob
  · intro verts edges h
    unfold decodeMesh
    exact resolveSegments_isSome _ _ fun p hp => h p (List.mem_dedup.mp hp)

/-- Witness for amended C5: truncation leaves concrete results unchanged, an
out-of-range index fails, and an in-range buffer succeeds. -/
theorem decoder_truncates_and_checks_range_witness :
    decodeMesh ([0, 0, 0] ++ [7]) [0, 0] = decodeMesh [0, 0, 0] [0, 0] ∧
    decodeMesh [0, 0, 0] ([0, 0] ++ [5]) = decodeMesh [0, 0, 0] [0, 0] ∧
    decodeMesh [0, 0, 0] [0, 5] = none ∧
    ∃ segs, decodeMesh [0, 0, 0] [0, 0] = some segs :=
  ⟨decoder_truncates_and_checks_range.1 [0, 0, 0] [7] [0, 0] (by decide) (by decide),
   decoder_truncates_and_checks_range.2.1 [0, 0, 0] [0, 0] [5] (by decide) (by decide),
   decoder_truncates_and_checks_range.2.2.1 [0, 0, 0] [0, 5] 0 5 (by decide) (by decide),
   decoder_truncates_and_checks_range.2.2.2 [0, 0, 0] [0, 0] (by decide)⟩

/-- C6: decoding an edge buffer in which every index pair is duplicated gives
the same result as decoding the buffer with the duplicates removed — both
equal the decoding of the original buffer. -/
theorem decoder_dedup_idempotent (vertices : List ℚ) (edges : List ℕ) :
    decodeMesh vertices (dupEdgeBuffer edges) =
      decodeMesh vertices (flattenPairs ((chunk2 edges).dedup)) ∧
    decodeMesh vertices (dupEdgeBuffer edges) = decodeMesh vertices edges := by
  have h1 : decodeMesh vertices (dupEdgeBuffer edges) = decodeMesh vertices edges := by
    unfold decodeMesh
    rw [chunk2_dupEdgeBuffer, dedup_duplicatePairs]
  have h2 : decodeMesh vertices (flattenPairs ((chunk2 edges).dedup)) =
      decodeMesh vertices edges := by
    unfold decodeMesh
    rw [chunk2_flattenPairs, List.dedup_idem]
  exact ⟨h1.trans h2.symm, h1⟩

/-- C7: when an edge buffer contains both (a,b) and its reversal (b,a) with
a ≠ b, the decoder's dedup does not merge them — both Segment(point[a],
point[b]) and Segment(point[b], point[a]) appear in the output. -/
theorem decoder_keeps_reversed_pairs (vertices : List ℚ) (edges : List ℕ) (a b : ℕ)
    (hne : a ≠ b) (hab : (a, b) ∈ chunk2 edges) (hba : (b, a) ∈ chunk2 edges)
    (segs : List Segment) (h : decodeMesh vertices edges = some segs) :
    ∃ pa pb, (chunk3 vertices)[a]? = some pa ∧ (chunk3 vertices)[b]? = some pb ∧
      (⟨pa, pb⟩ : Segment) ∈ segs ∧ (⟨pb, pa⟩ : Segment) ∈ segs := by
  unfold decodeMesh at h
  obtain ⟨pa, pb, h1, h2, h3⟩ :=
    resolveSegments_mem _ _ _ h a b (List.mem_dedup.mpr hab)
  obtain ⟨pb', pa', h1', h2', h3'⟩ :=
    resolveSegments_mem _ _ _ h b a (List.mem_dedup.mpr hba)
  have hbEq : pb' = pb := Option.some.inj (h1'.symm.trans h2)
  have haEq : pa' = pa := Option.some.inj (h2'.symm.trans h1)
  rw [hbEq, haEq] at h3'
  exact ⟨pa, pb, h1, h2, h3, h3'⟩

/-- Witness for C7: a two-point mesh whose edge buffer holds (0,1) and
(1,0); both oriented segments appear in the decoded output. -/
theorem decoder_keeps_reversed_pairs_witness :
    ∃ pa pb, (chunk3 [0, 0, 0, 1, 1, 1])[0]? = some pa ∧
      (chunk3 [0, 0, 0, 1, 1, 1])[1]? = some pb ∧
      (⟨pa, pb⟩ : Segment) ∈ [(⟨⟨0, 0, 0⟩, ⟨1, 1, 1⟩⟩ : Segment), ⟨⟨1, 1, 1⟩, ⟨0, 0, 0⟩⟩] ∧
      (⟨pb, pa⟩ : Segment) ∈ [(⟨⟨0, 0, 0⟩, ⟨1, 1, 1⟩⟩ : Segment), ⟨⟨1, 1, 1⟩, ⟨0, 0, 0⟩⟩] :=
  decoder_keeps_reversed_pairs [0, 0, 0, 1, 1, 1] [0, 1, 1, 0] 0 1 (by decide) (by decide)
    (by decide) [⟨⟨0, 0, 0⟩, ⟨1, 1, 1⟩⟩, ⟨⟨1, 1, 1⟩, ⟨0, 0, 0⟩⟩] (by decide)

/-- Counterexample to C8 as stated: serializing [((1,2,3),(4,5,6))] writes the
segment line with a trailing space before its newline ("line 1,2,3 4,5,6 \n"),
so the output differs from the claimed trailing-space-free file. -/
theorem serializer_literal_cex :
    writeLinesContent [⟨⟨1, 2, 3⟩, ⟨4, 5, 6⟩⟩] =
      "zoom -100,-100,-100 -200,-200,-200\nline 1,2,3 4,5,6 \nzoom a\n" ∧
    writeLinesContent [⟨⟨1, 2, 3⟩, ⟨4, 5, 6⟩⟩] ≠
      "zoom -100,-100,-100 -200,-200,-200\nline 1,2,3 4,5,6\nzoom a\n" := by
  constructor
  · rfl
  · decide

/-- C8 (amended): serializing [((1,2,3),(4,5,6))] produces exactly the header
line, then "line 1,2,3 4,5,6 " with a single trailing space before its
newline, then the footer line — coordinates comma-separated without spaces and
the two points separated by one space. -/
theorem serializer_literal_output :
    writeLinesContent [⟨⟨1, 2, 3⟩, ⟨4, 5, 6⟩⟩] =
      "zoom -100,-100,-100 -200,-200,-200\nline 1,2,3 4,5,6 \nzoom a\n" := rfl

/-- Counterexample to C9 as stated: a run over zero beams and zero columns
produces two empty artifacts, not two header+footer files. -/
theorem empty_run_cex :
    processOutputs [] [] = some ("", "") ∧
    processOutputs [] [] ≠
      some ("zoom -100,-100,-100 -200,-200,-200\nzoom a\n",
        "zoom -100,-100,-100 -200,-200,-200\nzoom a\n") := by
  constructor
  · rfl
  · decide

/-- C9 (amended): a run over zero beams and zero columns completes without
error and leaves both artifacts truncated to empty; a header+footer-only file
is what a single `writeLines` call with no segments would produce, but the
orchestrator never calls `writeLines` when there are no elements. -/
theorem empty_run_outputs_empty :
    processOutputs [] [] = some ("", "") ∧
    writeLinesContent [] = "zoom -100,-100,-100 -200,-200,-200\nzoom a\n" :=
  ⟨rfl, rfl⟩

end IFCtoSCR
